import Mathlib

/-!
Verification of the KRPC message envelope encoder of `src/krpc.rs`
(Divius/rust-dht).

The source builds a bencode value tree for a KRPC `Package`:
`Package::to_bencode` inserts the transaction id under the key `"tt"`,
the type tag under `"y"`, and the payload under a key equal to the type
tag (`"q"` / `"r"` / `"e"`), all into a `TreeMap` keyed by raw byte
strings.  We embed the bencode value tree, the `TreeMap` as a
strictly-sorted association list (its iteration order), and the byte
serialization of bencode values, and prove properties of the encoder.
-/

namespace Krpc

/-- Raw bytes of a wire string, as the list of its byte values. -/
def strBytes (s : String) : List Nat :=
  s.data.map Char.toNat

/-- Strict lexicographic order on raw byte strings: the order of
`bencode::util::ByteString` (and of Rust `String`, whose `Ord` is the
byte order of its UTF-8), used by `TreeMap` iteration. -/
def lexLt : List Nat → List Nat → Bool
  | [], [] => false
  | [], _ :: _ => true
  | _ :: _, [] => false
  | a :: as, b :: bs =>
    if a < b then true
    else if b < a then false
    else lexLt as bs

/-- The bencode value tree (`bencode::Bencode`): integer, byte string,
list, dictionary.  A dictionary (`bencode::DictMap`, a
`TreeMap<ByteString, Bencode>`) is represented by its iteration
sequence: an association list sorted strictly by `lexLt` on keys. -/
inductive Bencode where
  | number (n : Int)
  | byteString (b : List Nat)
  | list (l : List Bencode)
  | dict (d : List (List Nat × Bencode))

/-- Source `TreeMap::insert` on the sorted association-list representation:
keeps keys strictly sorted, replaces the value on an equal key. -/
def dictInsert (k : List Nat) (v : Bencode) :
    List (List Nat × Bencode) → List (List Nat × Bencode)
  | [] => [(k, v)]
  | (k₁, v₁) :: rest =>
    if lexLt k k₁ then (k, v) :: (k₁, v₁) :: rest
    else if k = k₁ then (k, v) :: rest
    else (k₁, v₁) :: dictInsert k v rest

/-- Lookup in the association-list representation of a `DictMap`. -/
def dictFind (k : List Nat) : List (List Nat × Bencode) → Option Bencode
  | [] => none
  | (k₁, v₁) :: rest => if k₁ = k then some v₁ else dictFind k rest

/-- Lookup of a top-level key of an encoded message. -/
def blookup (b : Bencode) (k : List Nat) : Option Bencode :=
  match b with
  | .dict d => dictFind k d
  | _ => none

/-- Modelled from the spec: the repository's `Node` type (declared in a
file of the repository outside `src/`; `krpc.rs` only imports it as
`super::Node`).  Per §3 a node has an opaque 160-bit `NodeId`; the
encoder in `src/krpc.rs` never reads any of its fields, so only its
identity matters here. -/
structure Node where
  id : List Nat
deriving DecidableEq, Repr

/-- The `BDict` of `src/krpc.rs`: `TreeMap<String, Vec<u8>>`, the payload
dictionary, as its sequence of (key bytes, value bytes) entries. -/
abbrev BDict := List (List Nat × List Nat)

/-- The `PackagePayload` of `src/krpc.rs`: Query, Response or Error.  The
Rust error message is a `String`; we carry its UTF-8 bytes. -/
inductive PackagePayload where
  | query (d : BDict)
  | response (d : BDict)
  | error (code : Int) (message : List Nat)
deriving DecidableEq, Repr

/-- The `Package` of `src/krpc.rs`. -/
structure Package where
  transaction_id : List Nat
  payload : PackagePayload
  sender : Node
deriving DecidableEq, Repr

/-- Helper `bytes_to_bencode` of `src/krpc.rs`: a byte vector becomes a
bencode byte string. -/
def bytes_to_bencode (bytes : List Nat) : Bencode :=
  .byteString bytes

/-- Helper `str_to_bencode` of `src/krpc.rs`: the UTF-8 bytes of a string as
a bencode byte string. -/
def str_to_bencode (s : String) : Bencode :=
  bytes_to_bencode (strBytes s)

/-- The entries of the `DictMap` built by `Package::bdict_to_bencode`:
iterate the `BDict` and insert each entry into a fresh `TreeMap`.
Modelled from the spec for the value conversion: `value.to_bencode()`
comes from the external `bencode` crate, which is not part of this
repository; per §4.1 (ByteString holds raw bytes) and §9 (the source's
payload maps strings to byte values) a `Vec<u8>` value encodes as a
bencode ByteString, exactly what the in-repository helper
`bytes_to_bencode` does. -/
def bdictEntries (d : BDict) : List (List Nat × Bencode) :=
  d.foldl (fun acc kv => dictInsert kv.1 (.byteString kv.2) acc) []

/-- Source `Package::bdict_to_bencode` of `src/krpc.rs`. -/
def bdict_to_bencode (d : BDict) : Bencode :=
  .dict (bdictEntries d)

/-- The type tag chosen by the `match` in `Package::to_bencode`. -/
def typStr : PackagePayload → String
  | .query _ => "q"
  | .response _ => "r"
  | .error _ _ => "e"

/-- The payload bencode value chosen by the `match` in
`Package::to_bencode`: Query and Response payload dicts go through
`bdict_to_bencode`; an Error becomes the list
`[code.to_bencode(), s.to_bencode()]` (integer, then the byte string
of the message — the in-repository test `test_error_to_bencode`
asserts this shape). -/
def payloadBencode : PackagePayload → Bencode
  | .query d => bdict_to_bencode d
  | .response d => bdict_to_bencode d
  | .error code s => .list [.number code, .byteString s]

/-- Source `Package::to_bencode` of `src/krpc.rs`: insert `"tt"` ↦
transaction id, then `"y"` ↦ type tag, then the type tag itself ↦
payload, into an initially empty `DictMap`. -/
def to_bencode (p : Package) : Bencode :=
  let m₁ := dictInsert (strBytes "tt") (bytes_to_bencode p.transaction_id) []
  let m₂ := dictInsert (strBytes "y") (str_to_bencode (typStr p.payload)) m₁
  let m₃ := dictInsert (strBytes (typStr p.payload)) (payloadBencode p.payload) m₂
  .dict m₃

/-- Decimal ASCII digits of a natural number. -/
def natDec (n : Nat) : List Nat :=
  (Nat.toDigits 10 n).map Char.toNat

/-- Decimal ASCII rendering of an integer, with a leading `-` when
negative. -/
def intDec : Int → List Nat
  | .ofNat n => natDec n
  | .negSucc n => 45 :: natDec (n + 1)

/-- Byte serialization of a bencode byte string: `<len>:<bytes>`. -/
def bstrEnc (b : List Nat) : List Nat :=
  natDec b.length ++ [58] ++ b

mutual

/-- Byte serialization of a bencode value: `i<n>e` for integers,
`<len>:<bytes>` for byte strings, `l…e` for lists, `d…e` for
dictionaries with entries in stored (sorted) order. -/
def benc : Bencode → List Nat
  | .number n => 105 :: intDec n ++ [101]
  | .byteString b => bstrEnc b
  | .list l => 108 :: bencList l ++ [101]
  | .dict d => 100 :: bencDict d ++ [101]

def bencList : List Bencode → List Nat
  | [] => []
  | x :: xs => benc x ++ bencList xs

def bencDict : List (List Nat × Bencode) → List Nat
  | [] => []
  | (k, v) :: rest => bstrEnc k ++ benc v ++ bencDict rest

end

/-- Strictly-increasing key sequence under `lexLt`. -/
def keysSorted : List (List Nat) → Bool
  | [] => true
  | [_] => true
  | a :: b :: rest => lexLt a b && keysSorted (b :: rest)

mutual

/-- Every dictionary node of a bencode tree has its keys in strictly
increasing raw-byte order. -/
def dictsOk : Bencode → Bool
  | .number _ => true
  | .byteString _ => true
  | .list l => dictsOkList l
  | .dict d => keysSorted (d.map Prod.fst) && dictsOkDict d

def dictsOkList : List Bencode → Bool
  | [] => true
  | x :: xs => dictsOk x && dictsOkList xs

def dictsOkDict : List (List Nat × Bencode) → Bool
  | [] => true
  | (_, v) :: rest => dictsOk v && dictsOkDict rest

end

/-- The order `lexLt` as a relation on keys. -/
def keyLt (a b : List Nat) : Prop := lexLt a b = true

/-- Modelled from the spec: decode failure kinds of the KRPC message
codec (§4.2, §7); the codec itself is not part of the repository (the
source contains only the encoder), so it is modelled from the spec's
words.  Only the kinds this development distinguishes are listed. -/
inductive DecodeErr where
  | missingField (field : List Nat)
  | typeMismatch (field : List Nat)
  | unknownTopLevelKey
  | protocolError
deriving DecidableEq, Repr

/-- Modelled from the spec: the typed messages of the KRPC codec
(§3, §4.2): Query (transaction id, method name, args dict), Response
(transaction id, values dict), Error (transaction id, code, message). -/
inductive Message where
  | query (t : List Nat) (method : List Nat) (args : List (List Nat × Bencode))
  | response (t : List Nat) (values : List (List Nat × Bencode))
  | err (t : List Nat) (code : Int) (message : List Nat)

/-- The top-level keys the spec's decoder accepts (§4.2): `{t, y, q,
a, r, e, v}`. -/
def allowedTopKeys : List (List Nat) :=
  [strBytes "t", strBytes "y", strBytes "q", strBytes "a",
   strBytes "r", strBytes "e", strBytes "v"]

/-- Modelled from the spec: the KRPC message decoder (§4.2), at the
bencode-value level.  The top-level value must be a dict; any key
beyond `{t, y, q, a, r, e, v}` is a protocol error; `t` and `y` are
required byte strings; on `y = q` a method name under `q` and an args
dict under `a` are required, on `y = r` a values dict under `r`, on
`y = e` a two-element list (integer, byte string) under `e`. -/
def krpcDecode (b : Bencode) : Except DecodeErr Message :=
  match b with
  | .dict d =>
    if d.all (fun kv => allowedTopKeys.contains kv.1) then
      match dictFind (strBytes "t") d with
      | none => .error (.missingField (strBytes "t"))
      | some (.byteString t) =>
        match dictFind (strBytes "y") d with
        | none => .error (.missingField (strBytes "y"))
        | some (.byteString y) =>
          if y = strBytes "q" then
            match dictFind (strBytes "q") d, dictFind (strBytes "a") d with
            | some (.byteString m), some (.dict a) => .ok (.query t m a)
            | _, _ => .error .protocolError
          else if y = strBytes "r" then
            match dictFind (strBytes "r") d with
            | some (.dict r) => .ok (.response t r)
            | _ => .error .protocolError
          else if y = strBytes "e" then
            match dictFind (strBytes "e") d with
            | some (.list [.number c, .byteString m]) => .ok (.err t c m)
            | _ => .error .protocolError
          else .error .protocolError
        | some _ => .error (.typeMismatch (strBytes "y"))
      | some _ => .error (.typeMismatch (strBytes "t"))
    else .error .unknownTopLevelKey
  | _ => .error .protocolError

/-- The spec's ping scenario (§8a): args dict with the single entry
`id ↦ "abcdefghij0123456789"`. -/
def pingBDict : BDict :=
  [(strBytes "id", strBytes "abcdefghij0123456789")]

/-- A sender node for concrete packages; `to_bencode` never reads it. -/
def pingNode : Node :=
  ⟨strBytes "abcdefghij0123456789"⟩

/-- The spec's ping scenario (§8a) as a source `Package`: transaction
id `aa`, Query payload carrying the 20-byte sender id. -/
def pingPackage : Package :=
  ⟨strBytes "aa", .query pingBDict, pingNode⟩

/-- A package whose transaction id is the empty byte string. -/
def emptyTidPackage : Package :=
  ⟨[], .response [], pingNode⟩

lemma lexLt_total : ∀ a b : List Nat, lexLt a b = true ∨ a = b ∨ lexLt b a = true
  | [], [] => Or.inr (Or.inl rfl)
  | [], _ :: _ => Or.inl rfl
  | _ :: _, [] => Or.inr (Or.inr rfl)
  | a :: as, b :: bs => by
      rcases Nat.lt_trichotomy a b with h | h | h
      · left; simp [lexLt, h]
      · subst h
        rcases lexLt_total as bs with h₂ | h₂ | h₂
        · left; simp [lexLt, h₂]
        · subst h₂; right; left; rfl
        · right; right; simp [lexLt, h₂]
      · right; right; simp [lexLt, h]

lemma dictInsert_head (k : List Nat) (v : Bencode) :
    ∀ d : List (List Nat × Bencode),
      ((dictInsert k v d).map Prod.fst).head? = some k ∨
      ((dictInsert k v d).map Prod.fst).head? = (d.map Prod.fst).head?
  | [] => Or.inl rfl
  | (k₁, v₁) :: rest => by
      by_cases h₁ : lexLt k k₁ = true
      · left
        simp only [dictInsert, if_pos h₁, List.map_cons, List.head?_cons]
      · by_cases h₂ : k = k₁
        · subst h₂; left
          simp [dictInsert, if_neg h₁]
        · right
          simp only [dictInsert, if_neg h₁, if_neg h₂, List.map_cons, List.head?_cons]

lemma chain_dictInsert (k : List Nat) (v : Bencode) :
    ∀ d : List (List Nat × Bencode),
      List.Chain' keyLt (d.map Prod.fst) →
      List.Chain' keyLt ((dictInsert k v d).map Prod.fst)
  | [], _ => List.chain'_singleton k
  | (k₁, v₁) :: rest, h => by
      have h₀ : List.Chain' keyLt (k₁ :: rest.map Prod.fst) := by simpa using h
      by_cases h₁ : lexLt k k₁ = true
      · simp only [dictInsert, if_pos h₁, List.map_cons]
        exact List.chain'_cons.mpr ⟨h₁, h₀⟩
      · by_cases h₂ : k = k₁
        · subst h₂
          simp only [dictInsert, if_neg h₁, if_pos rfl, List.map_cons]
          exact h₀
        · simp only [dictInsert, if_neg h₁, if_neg h₂, List.map_cons]
          refine List.chain'_cons'.mpr
            ⟨?_, chain_dictInsert k v rest (List.chain'_cons'.mp h₀).2⟩
          intro y hy
          rcases dictInsert_head k v rest with hh | hh
          · rw [hh] at hy
            simp only [Option.mem_def, Option.some.injEq] at hy
            subst hy
            rcases lexLt_total k k₁ with ht | ht | ht
            · exact absurd ht h₁
            · exact absurd ht h₂
            · exact ht
          · rw [hh] at hy
            exact (List.chain'_cons'.mp h₀).1 y hy

lemma chain_foldl_insert :
    ∀ (l : BDict) (acc : List (List Nat × Bencode)),
      List.Chain' keyLt (acc.map Prod.fst) →
      List.Chain' keyLt
        ((l.foldl (fun acc kv => dictInsert kv.1 (.byteString kv.2) acc) acc).map Prod.fst)
  | [], _, h => h
  | kv :: rest, acc, h =>
      chain_foldl_insert rest _ (chain_dictInsert kv.1 (.byteString kv.2) acc h)

lemma chain_bdictEntries (d : BDict) :
    List.Chain' keyLt ((bdictEntries d).map Prod.fst) :=
  chain_foldl_insert d [] List.chain'_nil

lemma keysSorted_iff : ∀ l : List (List Nat), keysSorted l = true ↔ List.Chain' keyLt l
  | [] => by simp [keysSorted]
  | [a] => by simp [keysSorted]
  | a :: b :: rest => by
      rw [keysSorted, List.chain'_cons, Bool.and_eq_true, keysSorted_iff (b :: rest)]
      exact Iff.rfl

lemma dictInsert_vals (P : Bencode → Prop) (k : List Nat) (v : Bencode) (hv : P v) :
    ∀ d : List (List Nat × Bencode), (∀ e ∈ d, P e.2) →
      ∀ e ∈ dictInsert k v d, P e.2
  | [], _, e, he => by
      simp only [dictInsert, List.mem_singleton] at he
      subst he; exact hv
  | (k₁, v₁) :: rest, h, e, he => by
      by_cases h₁ : lexLt k k₁ = true
      · rw [dictInsert, if_pos h₁] at he
        rcases List.mem_cons.mp he with he | he
        · subst he; exact hv
        · exact h e he
      · by_cases h₂ : k = k₁
        · subst h₂
          rw [dictInsert, if_neg h₁, if_pos rfl] at he
          rcases List.mem_cons.mp he with he | he
          · subst he; exact hv
          · exact h e (List.mem_cons_of_mem _ he)
        · rw [dictInsert, if_neg h₁, if_neg h₂] at he
          rcases List.mem_cons.mp he with he | he
          · subst he; exact h (k₁, v₁) (List.mem_cons_self _ _)
          · exact dictInsert_vals P k v hv rest
              (fun e₁ he₁ => h e₁ (List.mem_cons_of_mem _ he₁)) e he

lemma foldl_insert_vals :
    ∀ (l : BDict) (acc : List (List Nat × Bencode)),
      (∀ e ∈ acc, ∃ b, e.2 = Bencode.byteString b) →
      ∀ e ∈ l.foldl (fun acc kv => dictInsert kv.1 (.byteString kv.2) acc) acc,
        ∃ b, e.2 = Bencode.byteString b
  | [], _, h => h
  | kv :: rest, acc, h =>
      foldl_insert_vals rest _
        (dictInsert_vals (fun x => ∃ b, x = Bencode.byteString b)
          kv.1 (.byteString kv.2) ⟨kv.2, rfl⟩ acc h)

lemma bdictEntries_vals (d : BDict) :
    ∀ e ∈ bdictEntries d, ∃ b, e.2 = Bencode.byteString b :=
  foldl_insert_vals d [] (by intro e he; cases he)

lemma dictsOkDict_of_vals (d : List (List Nat × Bencode))
    (h : ∀ e ∈ d, dictsOk e.2 = true) : dictsOkDict d = true := by
  induction d with
  | nil => rfl
  | cons e rest ih =>
      obtain ⟨k, v⟩ := e
      rw [dictsOkDict, Bool.and_eq_true]
      exact ⟨h (k, v) (List.mem_cons_self _ _),
             ih fun e₁ he₁ => h e₁ (List.mem_cons_of_mem _ he₁)⟩

lemma dictsOk_bdict (d : BDict) : dictsOk (bdict_to_bencode d) = true := by
  rw [bdict_to_bencode, dictsOk, Bool.and_eq_true]
  constructor
  · exact (keysSorted_iff _).mpr (chain_bdictEntries d)
  · refine dictsOkDict_of_vals _ fun e he => ?_
    obtain ⟨b, hb⟩ := bdictEntries_vals d e he
    rw [hb]; rfl

/-- The shape of the encoder's top-level dictionary for a Query:
entries in `TreeMap` iteration order `q < tt < y`. -/
lemma to_bencode_query (tid : List Nat) (s : Node) (d : BDict) :
    to_bencode ⟨tid, .query d, s⟩ =
    .dict [(strBytes "q", bdict_to_bencode d),
           (strBytes "tt", .byteString tid),
           (strBytes "y", .byteString (strBytes "q"))] := rfl

/-- The shape of the encoder's top-level dictionary for a Response:
entries in `TreeMap` iteration order `r < tt < y`. -/
lemma to_bencode_response (tid : List Nat) (s : Node) (d : BDict) :
    to_bencode ⟨tid, .response d, s⟩ =
    .dict [(strBytes "r", bdict_to_bencode d),
           (strBytes "tt", .byteString tid),
           (strBytes "y", .byteString (strBytes "r"))] := rfl

/-- The shape of the encoder's top-level dictionary for an Error:
entries in `TreeMap` iteration order `e < tt < y`. -/
lemma to_bencode_error (tid : List Nat) (s : Node) (code : Int) (msg : List Nat) :
    to_bencode ⟨tid, .error code msg, s⟩ =
    .dict [(strBytes "e", .list [.number code, .byteString msg]),
           (strBytes "tt", .byteString tid),
           (strBytes "y", .byteString (strBytes "e"))] := rfl

/-- C1: the spec's ping scenario claims the encoder emits
`d1:ad2:id20:abcdefghij0123456789e1:q4:ping1:t2:aa1:y1:qe`; the source
encoder, applied to the corresponding Package (transaction id `aa`,
Query args `id ↦ abcdefghij0123456789`), actually emits
`d1:qd2:id20:abcdefghij0123456789e2:tt2:aa1:y1:qe` — the transaction
id sits under `tt`, the args dict under `q`, and no method name is
encoded at all (the source `Package` has no method field). -/
theorem ping_encode_bytes_diverge :
    benc (to_bencode pingPackage) =
      strBytes "d1:qd2:id20:abcdefghij0123456789e2:tt2:aa1:y1:qe" ∧
    benc (to_bencode pingPackage) ≠
      strBytes "d1:ad2:id20:abcdefghij0123456789e1:q4:ping1:t2:aa1:y1:qe" := by
  exact ⟨rfl, by decide⟩

/-- C2: the spec stores the transaction id under the one-byte key `t`;
the source encoder stores it, verbatim, under the two-byte key `tt`,
and emits nothing under `t`, for every Package. -/
theorem transaction_id_under_tt (p : Package) :
    blookup (to_bencode p) (strBytes "t") = none ∧
    blookup (to_bencode p) (strBytes "tt") =
      some (.byteString p.transaction_id) := by
  obtain ⟨tid, pl, s⟩ := p
  cases pl <;> exact ⟨rfl, rfl⟩

/-- C3: the spec stores a Query's args dict under `a` and its method
name under `q`; the source encoder, on the ping Query, emits nothing
under `a` and puts the args dict itself under `q` (no method name
exists in the source's `Package`). -/
theorem query_args_under_q_key :
    blookup (to_bencode pingPackage) (strBytes "a") = none ∧
    blookup (to_bencode pingPackage) (strBytes "q") =
      some (.dict [(strBytes "id",
        .byteString (strBytes "abcdefghij0123456789"))]) := by
  exact ⟨rfl, rfl⟩

/-- C4: for every Package the encoded top-level dictionary maps `y`
to the one-byte string `q` for a Query payload, `r` for a Response,
and `e` for an Error; being an equation over all Packages, no other
value of `y` is ever emitted. -/
theorem y_tag_matches_payload (p : Package) :
    blookup (to_bencode p) (strBytes "y") =
      some (.byteString (strBytes (match p.payload with
        | .query _ => "q"
        | .response _ => "r"
        | .error _ _ => "e"))) := by
  obtain ⟨tid, pl, s⟩ := p
  cases pl <;> rfl

/-- C5: in every dictionary of every encoded message — the top-level
dictionary and the nested payload dictionary — the keys appear in
strictly increasing raw-byte (lexicographic) order. -/
theorem emitted_dict_keys_sorted (p : Package) :
    dictsOk (to_bencode p) = true := by
  obtain ⟨tid, pl, s⟩ := p
  cases pl with
  | query d =>
      rw [to_bencode_query, dictsOk, Bool.and_eq_true]
      refine ⟨rfl, ?_⟩
      rw [dictsOkDict, Bool.and_eq_true]
      exact ⟨dictsOk_bdict d, rfl⟩
  | response d =>
      rw [to_bencode_response, dictsOk, Bool.and_eq_true]
      refine ⟨rfl, ?_⟩
      rw [dictsOkDict, Bool.and_eq_true]
      exact ⟨dictsOk_bdict d, rfl⟩
  | error code msg =>
      rfl

/-- C6: for every Package with an `Error(code, message)` payload, the
encoded message stores under `e` the two-element list holding the
integer code and then the byte string of the message. -/
theorem error_payload_two_element_list
    (tid : List Nat) (s : Node) (code : Int) (msg : List Nat) :
    blookup (to_bencode ⟨tid, .error code msg, s⟩) (strBytes "e") =
      some (.list [.number code, .byteString msg]) := rfl

/-- C7 counterexample: on a Package whose `transaction_id` is the
empty byte string, the encoder neither rejects nor pads: it encodes
the whole message (to `d1:rde2:tt0:1:y1:re`) with an empty
transaction-id byte string on the wire. -/
theorem empty_tid_encoded :
    benc (to_bencode emptyTidPackage) = strBytes "d1:rde2:tt0:1:y1:re" ∧
    blookup (to_bencode emptyTidPackage) (strBytes "tt") =
      some (.byteString []) := by
  exact ⟨rfl, rfl⟩

/-- C7 amended: the encoder echoes `transaction_id` verbatim (under
`tt`) with no validation, so the emitted transaction-id byte string is
non-empty exactly when the Package's `transaction_id` is non-empty. -/
theorem tid_echoed_nonempty (p : Package) (h : p.transaction_id ≠ []) :
    ∃ b, blookup (to_bencode p) (strBytes "tt") =
      some (.byteString b) ∧ b ≠ [] := by
  obtain ⟨tid, pl, s⟩ := p
  refine ⟨tid, ?_, h⟩
  cases pl <;> rfl

/-- C7 witness: the ping package has a non-empty transaction id and
its encoding carries a non-empty transaction-id byte string. -/
theorem tid_echoed_nonempty_witness :
    ∃ b, blookup (to_bencode pingPackage) (strBytes "tt") =
      some (.byteString b) ∧ b ≠ [] :=
  tid_echoed_nonempty pingPackage (by decide)

/-- C8: composing the source encoder with the spec's message decoder
(modelled from §4.2) fails on the ping package: the encoder emits the
top-level key `tt`, which the spec decoder rejects (and it emits no
`t` at all), so `decode(encode(M))` is an error, not `M`. -/
theorem decode_encode_ping_fails :
    krpcDecode (to_bencode pingPackage) =
      .error .unknownTopLevelKey := rfl

/-- C9: the encoder's output does not depend on the `sender` field:
two Packages agreeing on `transaction_id` and `payload` encode to the
same bencode value. -/
theorem encode_ignores_sender (p q : Package)
    (h₁ : p.transaction_id = q.transaction_id)
    (h₂ : p.payload = q.payload) :
    to_bencode p = to_bencode q := by
  obtain ⟨t₁, pl₁, s₁⟩ := p
  obtain ⟨t₂, pl₂, s₂⟩ := q
  simp only at h₁ h₂
  subst h₁; subst h₂
  rfl

/-- C9 witness: two packages equal except for their sender node
encode identically. -/
theorem encode_ignores_sender_witness :
    to_bencode ⟨strBytes "aa", .query pingBDict,
      ⟨strBytes "aaaaaaaaaaaaaaaaaaaa"⟩⟩ =
    to_bencode ⟨strBytes "aa", .query pingBDict,
      ⟨strBytes "bbbbbbbbbbbbbbbbbbbb"⟩⟩ :=
  encode_ignores_sender _ _ rfl rfl

/-- C10: for a Package with a Query or Response payload, the encoded
nested payload dictionary sits under the type-tag key and every one of
its values is a bencode ByteString — the `String → Vec<u8>` payload
type can carry nothing else. -/
theorem payload_values_bytestrings (p : Package) (d : BDict)
    (h : p.payload = .query d ∨ p.payload = .response d) :
    blookup (to_bencode p) (strBytes (typStr p.payload)) =
      some (.dict (bdictEntries d)) ∧
    ∀ e ∈ bdictEntries d, ∃ b, e.2 = Bencode.byteString b := by
  obtain ⟨tid, pl, s⟩ := p
  refine ⟨?_, bdictEntries_vals d⟩
  simp only at h
  rcases h with h | h <;> (subst h; rfl)

/-- C10 witness: the ping package's payload dictionary holds exactly
byte-string values. -/
theorem payload_values_bytestrings_witness :
    blookup (to_bencode pingPackage) (strBytes (typStr pingPackage.payload)) =
      some (.dict (bdictEntries pingBDict)) ∧
    ∀ e ∈ bdictEntries pingBDict, ∃ b, e.2 = Bencode.byteString b :=
  payload_values_bytestrings pingPackage pingBDict (Or.inl rfl)

end Krpc
